import Mathlib

/-!
Verification of the raw-memory dynamic array in `src/vector.h` (`RawMemory<T>` /
`Vector<T>`).  The element-level behaviour of the container is embedded as pure
functions over a list-of-live-elements state (`Vec`), and the storage-level
behaviour (uninitialized slots, construction, destruction, block release) as a
block model of `Option`-valued slots (`Block`, `MVec`).  Type-level properties
of the element type (`std::is_nothrow_move_constructible_v`,
`std::is_copy_constructible_v`) are embedded as a record of Booleans (`Traits`).
-/

namespace VectorSpec

/-! ## Element-type traits and the relocation policy -/

/-- Compile-time capabilities of the element type `T` that the source queries:
`std::is_nothrow_move_constructible_v<T>` and `std::is_copy_constructible_v<T>`. -/
structure Traits where
  nothrowMove : Bool
  copyConstructible : Bool
deriving DecidableEq

/-- How live elements are relocated into a freshly allocated block:
by `std::uninitialized_move_n` or by `std::uninitialized_copy_n`. -/
inductive RelocMode where
  | move
  | copy
deriving DecidableEq

/-- Relocation rule of `Vector<T>::Reserve` (vector.h lines 220-224):
`if constexpr (std::is_nothrow_move_constructible_v<T> || !std::is_copy_constructible_v<T>)`
then `uninitialized_move_n` else `uninitialized_copy_n`. -/
def reserveRelocMode (t : Traits) : RelocMode :=
  if t.nothrowMove || !t.copyConstructible then .move else .copy

/-- Relocation rule of the growth branch of `Vector<T>::PushBack`
(both overloads, vector.h lines 303-307 and 323-327). -/
def pushBackRelocMode (t : Traits) : RelocMode :=
  if t.nothrowMove || !t.copyConstructible then .move else .copy

/-- Relocation rule of the growth branch of `Vector<T>::EmplaceBack`
(vector.h lines 349-353). -/
def emplaceBackRelocMode (t : Traits) : RelocMode :=
  if t.nothrowMove || !t.copyConstructible then .move else .copy

/-- Relocation rule of the growth branch of `Vector<T>::Emplace`
(vector.h lines 381-387), applied to both the prefix and the suffix. -/
def emplaceRelocMode (t : Traits) : RelocMode :=
  if t.nothrowMove || !t.copyConstructible then .move else .copy

/-! ## Element-level state of `Vector<T>`

`elems` is the sequence of live (constructed) elements in slots
`[0, size_)`; `cap` is `data_.Capacity()`.  `Size()` is `elems.length`,
keeping the source invariant `size_ <= capacity_` about live slots implicit
in the representation. -/

structure Vec (α : Type) where
  elems : List α
  cap : Nat
deriving DecidableEq

/-- `Vector<T>::Size` (line 126). -/
def Vec.Size {α : Type} (v : Vec α) : Nat := v.elems.length

/-- `Vector<T>::Capacity` (line 130). -/
def Vec.Capacity {α : Type} (v : Vec α) : Nat := v.cap

/-- The default-constructed vector (line 100): no allocation, no elements. -/
def Vec.empty (α : Type) : Vec α := ⟨[], 0⟩

/-- `Vector<T>::operator[]` (line 134): reading slot `index`; `none` when the
precondition `index < size_` is violated. -/
def Vec.read {α : Type} (v : Vec α) (index : Nat) : Option α := v.elems[index]?

/-- `Vector<T>::Reserve` (lines 212-227): no-op when `capacity <= data_.Capacity()`;
otherwise a new block of exactly `capacity` slots is filled with the live elements
(moved or copied, per `reserveRelocMode`, which preserves their values), the old
elements destroyed and the storage swapped. -/
def Vec.Reserve {α : Type} (v : Vec α) (capacity : Nat) : Vec α :=
  if capacity ≤ v.cap then v
  else { elems := v.elems, cap := capacity }

/-- `Vector<T>::PushBack(const T&)` (lines 297-315): when `size_ == Capacity()`,
allocate `size_ == 0 ? 1 : size_ * 2` slots, construct the new element at offset
`size_` of the new block, relocate the live elements into offsets `[0, size_)`,
destroy the originals and swap; otherwise construct in place at offset `size_`.
`PushBack(T&&)` (lines 317-335) has the same element-level effect. -/
def Vec.PushBack {α : Type} (v : Vec α) (value : α) : Vec α :=
  if v.Size = v.Capacity then
    { elems := v.elems ++ [value], cap := if v.Size = 0 then 1 else v.Size * 2 }
  else
    { elems := v.elems ++ [value], cap := v.cap }

/-- `Vector<T>::PopBack` (lines 337-340): `data_[--size_].~T()`. -/
def Vec.PopBack {α : Type} (v : Vec α) : Vec α :=
  { elems := v.elems.dropLast, cap := v.cap }

/-- `Vector<T>::EmplaceBack` (lines 342-363): same growth rule and same
element-level effect as `PushBack`, constructing from the forwarded arguments;
returns a reference to `data_[size_-1]`. -/
def Vec.EmplaceBack {α : Type} (v : Vec α) (value : α) : Vec α :=
  if v.Size = v.Capacity then
    { elems := v.elems ++ [value], cap := if v.Size = 0 then 1 else v.Size * 2 }
  else
    { elems := v.elems ++ [value], cap := v.cap }

/-- `std::move_backward(buf + first, buf + last, buf + (last + 1))` inside one
buffer (used at vector.h line 398 with `first = pos_index`, `last = size_ - 1`):
every slot `i` with `first < i ≤ last` is move-assigned the element one slot to
its left; the walk is from the back, so each source is read before it is
overwritten, which the simultaneous map captures.  Slots outside the
destination range keep their element. -/
def moveBackward1 {α : Type} (l : List α) (first last : Nat) : List α :=
  l.mapIdx fun i x => if first < i ∧ i ≤ last then (l[i-1]?).getD x else x

/-- `std::move(buf + (p + 1), buf + n, buf + p)` inside one buffer (used at
vector.h line 427 with `p = pos_index`, `n = size_`): every slot `i` with
`p ≤ i` and `i + 1 < n` is move-assigned the element one slot to its right. -/
def moveLeft1 {α : Type} (l : List α) (p n : Nat) : List α :=
  l.mapIdx fun i x => if p ≤ i ∧ i + 1 < n then (l[i+1]?).getD x else x

/-- `Vector<T>::Emplace` (lines 365-405) at `pos_index = p`, `0 ≤ p ≤ size_`.
Growth branch (lines 375-392): construct the new element at offset `p` of the
new doubled block, relocate the prefix `[0, p)` ahead of it and the suffix
`[p, size_)` behind it, destroy the originals, swap; result iterator `new_pos`,
offset `p`.  Pure-append branch (line 393-394): construct at `end()`.  Interior
branch (lines 395-401): build `temp_el`, move-construct the last element into
`end()`, `std::move_backward` the range `[p, size_-1)` one slot right, and
move-assign `temp_el` into slot `p`; result iterator offset `p`.
Returns the element-level state and the offset of the returned iterator. -/
def Vec.Emplace {α : Type} (v : Vec α) (p : Nat) (value : α) : Vec α × Nat :=
  if v.Size = v.Capacity then
    ({ elems := v.elems.take p ++ value :: v.elems.drop p,
       cap := if v.Size = 0 then 1 else v.Size * 2 }, p)
  else if p = v.Size then
    ({ elems := v.elems ++ [value], cap := v.cap }, p)
  else
    ({ elems := (moveBackward1 (v.elems ++ [(v.elems[v.Size - 1]?).getD value])
                  p (v.Size - 1)).set p value,
       cap := v.cap }, p)

/-- `Vector<T>::Insert(pos, const T&)` (lines 407-410): `return Emplace(pos, value)`. -/
def Vec.Insert {α : Type} (v : Vec α) (p : Nat) (value : α) : Vec α × Nat :=
  v.Emplace p value

/-- `Vector<T>::Insert(pos, T&&)` (lines 412-415): `return Emplace(pos, std::move(value))`. -/
def Vec.InsertMove {α : Type} (v : Vec α) (p : Nat) (value : α) : Vec α × Nat :=
  v.Emplace p value

/-- `Vector<T>::Erase` (lines 417-431) at `pos_index = p < size_`: destroy the
element at `p`, `std::move` the following elements one slot toward `p`,
decrement `size_` (abandoning the last slot), return an iterator to offset `p`. -/
def Vec.Erase {α : Type} (v : Vec α) (p : Nat) : Vec α × Nat :=
  ({ elems := (moveLeft1 v.elems p v.Size).take (v.Size - 1), cap := v.cap }, p)

/-! ## Claim C1 -/

/-- Claim C1: the relocation policy is one fixed type-level rule — relocation
moves exactly when the element type's move construction cannot throw or the
type is not copy constructible, and otherwise copies — and the rule embedded
from `Reserve`, from the growth branch of `PushBack`/`EmplaceBack`, and from the
growth branch of `Emplace` is the same function of the element type's traits. -/
theorem relocation_policy_uniform (t : Traits) :
    (reserveRelocMode t = .move ↔ (t.nothrowMove = true ∨ t.copyConstructible = false)) ∧
    reserveRelocMode t = pushBackRelocMode t ∧
    pushBackRelocMode t = emplaceBackRelocMode t ∧
    emplaceBackRelocMode t = emplaceRelocMode t := by
  obtain ⟨m, c⟩ := t
  cases m <;> cases c <;> simp [reserveRelocMode, pushBackRelocMode,
    emplaceBackRelocMode, emplaceRelocMode]

/-! ## Helper lemmas on the shift operations -/

theorem getElem?_moveBackward1 {α : Type} (l : List α) (first last i : Nat)
    (hi : i < l.length) (hlo : first < i) (hhi : i ≤ last) (h1 : i - 1 < l.length) :
    (moveBackward1 l first last)[i]? = l[i-1]? := by
  simp only [moveBackward1, List.getElem?_mapIdx]
  rw [List.getElem?_eq_getElem hi]
  simp only [Option.map_some']
  rw [if_pos ⟨hlo, hhi⟩, List.getElem?_eq_getElem h1]
  simp

theorem getElem?_moveBackward1_out {α : Type} (l : List α) (first last i : Nat)
    (h : ¬ (first < i ∧ i ≤ last)) :
    (moveBackward1 l first last)[i]? = l[i]? := by
  simp only [moveBackward1, List.getElem?_mapIdx]
  by_cases hi : i < l.length
  · rw [List.getElem?_eq_getElem hi]
    simp only [Option.map_some']
    rw [if_neg h]
  · rw [List.getElem?_eq_none (show l.length ≤ i by omega)]
    simp

theorem moveBackward1_set_eq_insert {α : Type} (l : List α) (p : Nat) (x : α)
    (hp : p < l.length) :
    (moveBackward1 (l ++ [(l[l.length - 1]?).getD x]) p (l.length - 1)).set p x
      = l.take p ++ x :: l.drop p := by
  obtain ⟨a, ha⟩ : ∃ a, l[l.length - 1]? = some a :=
    ⟨l.get ⟨l.length - 1, by omega⟩, by rw [List.getElem?_eq_getElem (by omega)]; rfl⟩
  have hyv : (l[l.length - 1]?).getD x = a := by rw [ha]; rfl
  rw [hyv]
  have hlen : (moveBackward1 (l ++ [a]) p (l.length - 1)).length = l.length + 1 := by
    simp [moveBackward1]
  have htp : (l.take p).length = p := by simp; omega
  apply List.ext_getElem?
  intro i
  rcases Nat.lt_trichotomy i p with hip | hip | hip
  · rw [List.getElem?_set_ne (by omega),
      getElem?_moveBackward1_out _ _ _ _ (by omega),
      List.getElem?_append_left (by omega),
      List.getElem?_append_left (by omega : i < (l.take p).length),
      List.getElem?_take, if_pos hip]
  · subst hip
    rw [List.getElem?_set_self (by omega),
      List.getElem?_append_right (by omega),
      htp, Nat.sub_self]
    simp
  · rcases Nat.lt_trichotomy i l.length with hil | hil | hil
    · rw [List.getElem?_set_ne (by omega),
        getElem?_moveBackward1 _ _ _ _ (by simp; omega) (by omega) (by omega) (by simp; omega),
        List.getElem?_append_left (by omega : i - 1 < l.length),
        List.getElem?_append_right (by omega), htp,
        show i - p = (i - p - 1) + 1 by omega]
      simp only [List.getElem?_cons_succ, List.getElem?_drop]
      rw [show p + (i - p - 1) = i - 1 by omega]
    · subst hil
      rw [List.getElem?_set_ne (by omega),
        getElem?_moveBackward1_out _ _ _ _ (by omega),
        List.getElem?_concat_length,
        List.getElem?_append_right (by omega), htp,
        show l.length - p = (l.length - p - 1) + 1 by omega]
      simp only [List.getElem?_cons_succ, List.getElem?_drop]
      rw [show p + (l.length - p - 1) = l.length - 1 by omega, ha]
    · rw [List.getElem?_eq_none (by rw [List.length_set, hlen]; omega),
        List.getElem?_eq_none (by simp; omega)]

theorem moveLeft1_take_eq_remove {α : Type} (l : List α) (p : Nat)
    (hp : p < l.length) :
    (moveLeft1 l p l.length).take (l.length - 1) = l.take p ++ l.drop (p+1) := by
  have htp : (l.take p).length = p := by simp; omega
  apply List.ext_getElem?
  intro i
  rw [List.getElem?_take]
  by_cases hi : i < l.length - 1
  · rw [if_pos hi]
    simp only [moveLeft1, List.getElem?_mapIdx]
    rw [List.getElem?_eq_getElem (by omega : i < l.length)]
    simp only [Option.map_some']
    rcases Nat.lt_or_ge i p with hip | hip
    · rw [if_neg (by omega),
        List.getElem?_append_left (by omega : i < (l.take p).length),
        List.getElem?_take, if_pos hip, List.getElem?_eq_getElem (by omega : i < l.length)]
    · rw [if_pos (by omega : p ≤ i ∧ i + 1 < l.length),
        List.getElem?_eq_getElem (by omega : i + 1 < l.length)]
      simp only [Option.getD_some]
      rw [List.getElem?_append_right (by omega)]
      simp only [htp, List.getElem?_drop]
      rw [show p + 1 + (i - p) = i + 1 by omega,
        List.getElem?_eq_getElem (by omega : i + 1 < l.length)]
  · rw [if_neg hi, List.getElem?_eq_none (by simp; omega)]

/-! ## Claim C4 -/

/-- Claim C4: for a vector of size `n` and any position `p ≤ n`, `Emplace` at
`p` (and both `Insert` forms, which are thin wrappers over it) yields size
`n + 1`, the inserted value at index `p`, the prefix `[0, p)` at the same
indices and the old suffix `[p, n)` shifted to `[p+1, n+1)` in order — i.e. the
new element sequence is `take p ++ value :: drop p` — and returns an iterator
to offset `p`, the slot of the new element. -/
theorem emplace_insert_correct {α : Type} (v : Vec α) (p : Nat) (value : α)
    (hp : p ≤ v.Size) :
    (v.Emplace p value).1.Size = v.Size + 1 ∧
    (v.Emplace p value).1.elems = v.elems.take p ++ value :: v.elems.drop p ∧
    (v.Emplace p value).2 = p ∧
    (v.Emplace p value).1.read p = some value ∧
    v.Insert p value = v.Emplace p value ∧
    v.InsertMove p value = v.Emplace p value := by
  have hp' : p ≤ v.elems.length := hp
  have htp : (v.elems.take p).length = p := by simp; omega
  have helems : (v.Emplace p value).1.elems = v.elems.take p ++ value :: v.elems.drop p := by
    unfold Vec.Emplace
    by_cases hg : v.Size = v.Capacity
    · rw [if_pos hg]
    · rw [if_neg hg]
      by_cases hpe : p = v.Size
      · rw [if_pos hpe]
        subst hpe
        simp [Vec.Size]
      · rw [if_neg hpe]
        exact moveBackward1_set_eq_insert v.elems p value (Nat.lt_of_le_of_ne hp' hpe)
  have hsize : (v.Emplace p value).1.Size = v.Size + 1 := by
    show (v.Emplace p value).1.elems.length = v.elems.length + 1
    rw [helems]
    simp only [List.length_append, List.length_cons, List.length_take, List.length_drop]
    omega
  have hidx : (v.Emplace p value).2 = p := by
    unfold Vec.Emplace
    split
    · rfl
    · split
      · rfl
      · rfl
  have hread : (v.Emplace p value).1.read p = some value := by
    show (v.Emplace p value).1.elems[p]? = some value
    rw [helems, List.getElem?_append_right (Nat.le_of_eq htp), htp, Nat.sub_self]
    simp
  exact ⟨hsize, helems, hidx, hread, rfl, rfl⟩

/-- Witness for C4: emplacing `99` at position `1` of `[10, 20, 30]`. -/
theorem emplace_insert_correct_witness :
    ((⟨[10, 20, 30], 3⟩ : Vec Nat).Emplace 1 99).1.elems
      = [10, 20, 30].take 1 ++ 99 :: [10, 20, 30].drop 1 :=
  (@emplace_insert_correct Nat ⟨[10, 20, 30], 3⟩ 1 99 (by decide)).2.1

/-! ## Claim C5 -/

/-- Claim C5: for a vector of size `n > 0` and position `p < n`, `Erase` at `p`
yields size `n - 1`, keeps `[0, p)` unchanged and shifts the old elements of
`[p+1, n)` one slot left in order — i.e. the new element sequence is
`take p ++ drop (p+1)` — and returns an iterator to offset `p`, the slot now
holding the element that followed the erased one (the new end when the erased
element was last, since then `p` equals the new size). -/
theorem erase_correct {α : Type} (v : Vec α) (p : Nat) (hp : p < v.Size) :
    (v.Erase p).1.Size = v.Size - 1 ∧
    (v.Erase p).1.elems = v.elems.take p ++ v.elems.drop (p+1) ∧
    (v.Erase p).2 = p ∧
    (∀ i, p ≤ i → i + 1 < v.Size → (v.Erase p).1.read i = v.read (i+1)) := by
  have hp' : p < v.elems.length := hp
  have htp : (v.elems.take p).length = p := by simp; omega
  have helems : (v.Erase p).1.elems = v.elems.take p ++ v.elems.drop (p+1) :=
    moveLeft1_take_eq_remove v.elems p hp'
  have hsize : (v.Erase p).1.Size = v.Size - 1 := by
    show (v.Erase p).1.elems.length = v.elems.length - 1
    rw [helems]
    simp only [List.length_append, List.length_take, List.length_drop]
    omega
  refine ⟨hsize, helems, rfl, ?_⟩
  intro i hpi hi
  have hi' : i + 1 < v.elems.length := hi
  show (v.Erase p).1.elems[i]? = v.elems[i+1]?
  rw [helems, List.getElem?_append_right (by simp only [htp]; exact hpi)]
  simp only [htp, List.getElem?_drop]
  rw [show p + 1 + (i - p) = i + 1 by omega]

/-- Witness for C5: erasing position `1` of `[10, 20, 30]`. -/
theorem erase_correct_witness :
    ((⟨[10, 20, 30], 4⟩ : Vec Nat).Erase 1).1.elems
      = [10, 20, 30].take 1 ++ [10, 20, 30].drop 2 :=
  (@erase_correct Nat ⟨[10, 20, 30], 4⟩ 1 (by decide)).2.1


/-! ## Remaining element-level operations -/

theorem Vec.cap_mk {α : Type} (e : List α) (c : Nat) : (Vec.mk e c).cap = c := rfl

theorem Vec.elems_mk {α : Type} (e : List α) (c : Nat) : (Vec.mk e c).elems = e := rfl

/-- `Vector<T>::Resize` (lines 284-295): no-op when `new_size == size_`;
shrinking destroys the trailing elements in place; growing calls
`Reserve(new_size)` and value-initializes the newly exposed slots
(`std::uninitialized_value_construct_n`, embedded as `default`). -/
def Vec.Resize {α : Type} [Inhabited α] (v : Vec α) (new_size : Nat) : Vec α :=
  if new_size = v.Size then v
  else if new_size < v.Size then { elems := v.elems.take new_size, cap := v.cap }
  else { elems := (v.Reserve new_size).elems ++ List.replicate (new_size - v.Size) default,
         cap := (v.Reserve new_size).cap }

/-- `Vector<T>::Swap` (lines 278-282): `std::swap(data_, other.data_)` and
`std::swap(size_, other.size_)`.  Returns `(this, other)` after the exchange. -/
def Vec.SwapOp {α : Type} (a b : Vec α) : Vec α × Vec α :=
  (⟨b.elems, b.cap⟩, ⟨a.elems, a.cap⟩)

/-- `Vector<T>::operator=(const Vector&)` (lines 237-241) when `&other == this`:
the identity check at line 238 returns `*this` immediately, unchanged. -/
def Vec.copyAssignSelf {α : Type} (v : Vec α) : Vec α := v

/-- `Vector<T>::operator=(Vector&&)` (lines 267-275) when `&other == this`
(this path has no identity check): `data_ = std::move(other.data_)` runs
`RawMemory<T>::operator=(RawMemory&&)` (lines 27-35) with `other` aliased to
`*this` — the self-assignments of `buffer_` and `capacity_` are no-ops, and the
subsequent `other.buffer_ = nullptr; other.capacity_ = 0;` null the vector's
own storage (the old block is abandoned, not deallocated); then
`size_ = std::move(other.size_)` is a no-op and `other.size_ = 0` (line 272)
zeroes the vector's own `size_`.  The vector ends empty. -/
def Vec.moveAssignSelf {α : Type} (_v : Vec α) : Vec α := ⟨[], 0⟩

/-- Observable effect of `Vector<T>::operator=(Vector&&)` (lines 267-275) for
`&other != this`, including the storage bookkeeping of the
`RawMemory<T>::operator=(RawMemory&&)` (lines 27-35) it invokes:
`elemsDestroyed` counts destructor calls made on the destination's previously
live elements (the assignment body contains none) and `blocksDeallocated`
counts `Deallocate` calls (the `RawMemory` move-assignment overwrites
`buffer_` without any).  The source is left nulled and with `size_ = 0`. -/
structure MoveAssignEffect (α : Type) where
  dst : Vec α
  src : Vec α
  elemsDestroyed : Nat
  blocksDeallocated : Nat
deriving DecidableEq

/-- `a = std::move(b)` for distinct `a`, `b` (lines 267-275 and 27-35). -/
def Vec.moveAssign {α : Type} (a b : Vec α) : MoveAssignEffect α :=
  { dst := ⟨b.elems, b.cap⟩, src := ⟨[], 0⟩, elemsDestroyed := 0, blocksDeallocated := 0 }

/-! ## Claim C3 -/

/-- A step of a `PushBack`/`PopBack` sequence. -/
inductive SeqOp (α : Type) where
  | push (x : α)
  | pop
deriving DecidableEq

def Vec.applyOp {α : Type} (v : Vec α) : SeqOp α → Vec α
  | .push x => v.PushBack x
  | .pop => v.PopBack

def Vec.applyOps {α : Type} (v : Vec α) (ops : List (SeqOp α)) : Vec α :=
  ops.foldl Vec.applyOp v

/-- The claim's reference sequence: pushes append in push order, pops remove
from the tail. -/
def absStep {α : Type} (l : List α) : SeqOp α → List α
  | .push x => l ++ [x]
  | .pop => l.dropLast

def absRun {α : Type} (l : List α) (ops : List (SeqOp α)) : List α :=
  ops.foldl absStep l

/-- Each `PopBack` is performed only on a non-empty vector. -/
def wfOps {α : Type} : List α → List (SeqOp α) → Bool
  | _, [] => true
  | l, .push x :: rest => wfOps (l ++ [x]) rest
  | l, .pop :: rest => !l.isEmpty && wfOps l.dropLast rest

def countPush {α : Type} : List (SeqOp α) → Nat
  | [] => 0
  | .push _ :: rest => countPush rest + 1
  | .pop :: rest => countPush rest

def countPop {α : Type} : List (SeqOp α) → Nat
  | [] => 0
  | .push _ :: rest => countPop rest
  | .pop :: rest => countPop rest + 1

theorem pushBack_elems {α : Type} (v : Vec α) (x : α) :
    (v.PushBack x).elems = v.elems ++ [x] := by
  unfold Vec.PushBack
  split <;> rfl

theorem applyOps_elems {α : Type} (ops : List (SeqOp α)) (v : Vec α) :
    (v.applyOps ops).elems = absRun v.elems ops := by
  induction ops generalizing v with
  | nil => rfl
  | cons o rest ih =>
    have hstep : (v.applyOp o).elems = absStep v.elems o := by
      cases o with
      | push x => exact pushBack_elems v x
      | pop => rfl
    show ((v.applyOp o).applyOps rest).elems = absRun (absStep v.elems o) rest
    rw [ih, hstep]

theorem absRun_length {α : Type} (ops : List (SeqOp α)) (l : List α)
    (h : wfOps l ops = true) :
    (absRun l ops).length + countPop ops = l.length + countPush ops := by
  induction ops generalizing l with
  | nil => simp [absRun, countPush, countPop]
  | cons o rest ih =>
    cases o with
    | push x =>
      have h' : wfOps (l ++ [x]) rest = true := h
      have hr := ih (l ++ [x]) h'
      show (absRun (l ++ [x]) rest).length + countPop rest = l.length + (countPush rest + 1)
      simp only [List.length_append, List.length_singleton] at hr
      omega
    | pop =>
      have h1 : l.isEmpty = false ∧ wfOps l.dropLast rest = true := by
        have h' := h
        simp only [wfOps, Bool.and_eq_true] at h'
        refine ⟨?_, h'.2⟩
        cases hE : l.isEmpty
        · rfl
        · rw [hE] at h'
          exact absurd h'.1 (by decide)
      have hr := ih l.dropLast h1.2
      have hne : l.length ≠ 0 := by
        intro h0
        have hl : l = [] := List.eq_nil_of_length_eq_zero h0
        rw [hl] at h1
        exact absurd h1.1 (by simp)
      have hdl : l.dropLast.length = l.length - 1 := by simp
      show (absRun l.dropLast rest).length + (countPop rest + 1) = l.length + countPush rest
      omega

/-- Claim C3: for every starting vector and every sequence of `PushBack` and
`PopBack` calls in which each pop hits a non-empty vector, the final `Size()`
is the starting size plus the number of pushes minus the number of pops, and
reading each index of the result yields the sequence obtained by appending
pushed values in push order with each pop removing from the tail. -/
theorem pushpop_sequence_correct {α : Type} (v : Vec α) (ops : List (SeqOp α))
    (h : wfOps v.elems ops = true) :
    (v.applyOps ops).elems = absRun v.elems ops ∧
    (v.applyOps ops).Size = v.Size + countPush ops - countPop ops ∧
    (∀ i, i < (v.applyOps ops).Size → (v.applyOps ops).read i = (absRun v.elems ops)[i]?) := by
  have he := applyOps_elems ops v
  have hlen := absRun_length ops v.elems h
  refine ⟨he, ?_, ?_⟩
  · show (v.applyOps ops).elems.length = v.elems.length + countPush ops - countPop ops
    rw [he]
    omega
  · intro i _
    show (v.applyOps ops).elems[i]? = (absRun v.elems ops)[i]?
    rw [he]

/-- Witness for C3: `[1, 2]` then push 3, pop, pop. -/
theorem pushpop_sequence_correct_witness :
    ((⟨[1, 2], 2⟩ : Vec Nat).applyOps [.push 3, .pop, .pop]).elems
      = absRun [1, 2] [.push 3, .pop, .pop] :=
  (@pushpop_sequence_correct Nat ⟨[1, 2], 2⟩ [.push 3, .pop, .pop] (by decide)).1

/-! ## Claim C6 -/

/-- A storage-level step of the growth branch of an append. -/
inductive GrowthStep where
  | allocNewBlock (capacity : Nat)
  | constructNewElem (offset : Nat)
  | relocateLive (count : Nat)
  | destroyOld (count : Nat)
  | swapStorage
deriving DecidableEq

/-- The storage-level steps of the growth branch of `PushBack`
(lines 300-310) and `EmplaceBack` (lines 346-356), in source order: allocate a
new block of `size_ == 0 ? 1 : size_ * 2` slots (line 300/346),
placement-construct the new element at offset `size_` of the new block
(line 301/347), relocate the `size_` live elements into offsets `[0, size_)`
(lines 303-307/349-353), destroy the originals (line 309/355), swap storage
(line 310/356). -/
def appendGrowthSteps (size : Nat) : List GrowthStep :=
  [.allocNewBlock (if size = 0 then 1 else size * 2),
   .constructNewElem size,
   .relocateLive size,
   .destroyOld size,
   .swapStorage]

def Vec.pushAll {α : Type} (v : Vec α) (xs : List α) : Vec α :=
  xs.foldl Vec.PushBack v

theorem pushBack_size {α : Type} (v : Vec α) (x : α) :
    (v.PushBack x).Size = v.Size + 1 := by
  show (v.PushBack x).elems.length = v.elems.length + 1
  rw [pushBack_elems]
  simp

theorem pushBack_size_le_cap {α : Type} (v : Vec α) (x : α) (h : v.Size ≤ v.Capacity) :
    (v.PushBack x).Size ≤ (v.PushBack x).Capacity := by
  have hs := pushBack_size v x
  rw [hs]
  show v.Size + 1 ≤ (v.PushBack x).cap
  unfold Vec.PushBack
  by_cases hg : v.Size = v.Capacity
  · rw [if_pos hg]
    simp only [Vec.cap_mk]
    have hc : v.Size = v.cap := hg
    split
    · omega
    · omega
  · rw [if_neg hg]
    simp only [Vec.cap_mk]
    have : v.Size < v.cap := Nat.lt_of_le_of_ne h hg
    omega

theorem pushAll_size {α : Type} (xs : List α) (v : Vec α) :
    (v.pushAll xs).Size = v.Size + xs.length := by
  induction xs generalizing v with
  | nil => rfl
  | cons x rest ih =>
    show ((v.PushBack x).pushAll rest).Size = v.Size + (rest.length + 1)
    rw [ih, pushBack_size]
    omega

theorem pushAll_size_le_cap {α : Type} (xs : List α) (v : Vec α)
    (h : v.Size ≤ v.Capacity) :
    (v.pushAll xs).Size ≤ (v.pushAll xs).Capacity := by
  induction xs generalizing v with
  | nil => exact h
  | cons x rest ih => exact ih (v.PushBack x) (pushBack_size_le_cap v x h)

/-- Claim C6: when an append finds `size_ == Capacity()`, the new capacity is
`max 1 (old capacity * 2)`; in the growth path the new element is constructed
into the new block at offset old-size strictly before the existing elements
are relocated; and after any number of pushes starting from the empty vector
the capacity is at least the number of pushes. -/
theorem growth_doubling {α : Type} (v : Vec α) (x : α) (hfull : v.Size = v.Capacity) :
    ((v.PushBack x).Capacity = max 1 (v.Capacity * 2) ∧
     (v.EmplaceBack x).Capacity = max 1 (v.Capacity * 2)) ∧
    (∃ i j : Nat, i < j ∧
      (appendGrowthSteps v.Size)[i]? = some (GrowthStep.constructNewElem v.Size) ∧
      (appendGrowthSteps v.Size)[j]? = some (GrowthStep.relocateLive v.Size)) ∧
    (∀ xs : List α, xs.length ≤ ((Vec.empty α).pushAll xs).Capacity) := by
  have hc : v.Size = v.cap := hfull
  refine ⟨⟨?_, ?_⟩, ⟨1, 2, by omega, rfl, rfl⟩, ?_⟩
  · show (v.PushBack x).cap = max 1 (v.cap * 2)
    unfold Vec.PushBack
    rw [if_pos hfull]
    simp only [Vec.cap_mk]
    by_cases h0 : v.Size = 0
    · rw [if_pos h0, show v.cap = 0 from by omega]
      decide
    · rw [if_neg h0, max_eq_right (by omega : 1 ≤ v.cap * 2)]
      omega
  · show (v.EmplaceBack x).cap = max 1 (v.cap * 2)
    unfold Vec.EmplaceBack
    rw [if_pos hfull]
    simp only [Vec.cap_mk]
    by_cases h0 : v.Size = 0
    · rw [if_pos h0, show v.cap = 0 from by omega]
      decide
    · rw [if_neg h0, max_eq_right (by omega : 1 ≤ v.cap * 2)]
      omega
  · intro xs
    have h1 := pushAll_size_le_cap xs (Vec.empty α) (Nat.le_refl 0)
    have h2 := pushAll_size xs (Vec.empty α)
    have h3 : (Vec.empty α).Size = 0 := rfl
    omega

/-- Witness for C6: pushing into a full vector of capacity 1. -/
theorem growth_doubling_witness :
    ((⟨[5], 1⟩ : Vec Nat).PushBack 7).Capacity
      = max 1 ((⟨[5], 1⟩ : Vec Nat).Capacity * 2) :=
  (@growth_doubling Nat ⟨[5], 1⟩ 7 (by decide)).1.1

/-! ## Claim C9 -/

/-- The mutating operations a vector can undergo other than replacement by
copy/move assignment and exchange by `Swap`. -/
inductive MutOp (α : Type) where
  | reserve (c : Nat)
  | resize (n : Nat)
  | pushBack (x : α)
  | pushBackMove (x : α)
  | popBack
  | emplaceBack (x : α)
  | emplace (p : Nat) (x : α)
  | insert (p : Nat) (x : α)
  | insertMove (p : Nat) (x : α)
  | erase (p : Nat)

def Vec.applyMut {α : Type} [Inhabited α] (v : Vec α) : MutOp α → Vec α
  | .reserve c => v.Reserve c
  | .resize n => v.Resize n
  | .pushBack x => v.PushBack x
  | .pushBackMove x => v.PushBack x
  | .popBack => v.PopBack
  | .emplaceBack x => v.EmplaceBack x
  | .emplace p x => (v.Emplace p x).1
  | .insert p x => (v.Insert p x).1
  | .insertMove p x => (v.InsertMove p x).1
  | .erase p => (v.Erase p).1

def Vec.applyMuts {α : Type} [Inhabited α] (v : Vec α) (ops : List (MutOp α)) : Vec α :=
  ops.foldl Vec.applyMut v

theorem reserve_cap_mono {α : Type} (v : Vec α) (c : Nat) :
    v.cap ≤ (v.Reserve c).cap := by
  unfold Vec.Reserve
  split
  · exact Nat.le_refl _
  · simp only [Vec.cap_mk]
    omega

theorem emplace_cap_mono {α : Type} (v : Vec α) (p : Nat) (x : α) :
    v.cap ≤ (v.Emplace p x).1.cap := by
  unfold Vec.Emplace
  by_cases hg : v.Size = v.Capacity
  · rw [if_pos hg]
    simp only [Vec.cap_mk]
    have hc : v.Size = v.cap := hg
    split <;> omega
  · rw [if_neg hg]
    split <;> exact Nat.le_refl _

theorem applyMut_cap_mono {α : Type} [Inhabited α] (v : Vec α) (o : MutOp α) :
    v.Capacity ≤ (v.applyMut o).Capacity := by
  have hpush : ∀ (w : Vec α) (y : α), w.cap ≤ (w.PushBack y).cap := by
    intro w y
    unfold Vec.PushBack
    by_cases hg : w.Size = w.Capacity
    · rw [if_pos hg]
      simp only [Vec.cap_mk]
      have hc : w.Size = w.cap := hg
      split <;> omega
    · rw [if_neg hg]
  have hemb : ∀ (w : Vec α) (y : α), w.cap ≤ (w.EmplaceBack y).cap := by
    intro w y
    unfold Vec.EmplaceBack
    by_cases hg : w.Size = w.Capacity
    · rw [if_pos hg]
      simp only [Vec.cap_mk]
      have hc : w.Size = w.cap := hg
      split <;> omega
    · rw [if_neg hg]
  cases o with
  | reserve c => exact reserve_cap_mono v c
  | resize n =>
    show v.cap ≤ (v.Resize n).cap
    unfold Vec.Resize
    split
    · exact Nat.le_refl _
    · split
      · exact Nat.le_refl _
      · simp only [Vec.cap_mk]
        exact reserve_cap_mono v n
  | pushBack x => exact hpush v x
  | pushBackMove x => exact hpush v x
  | popBack => exact Nat.le_refl _
  | emplaceBack x => exact hemb v x
  | emplace p x => exact emplace_cap_mono v p x
  | insert p x => exact emplace_cap_mono v p x
  | insertMove p x => exact emplace_cap_mono v p x
  | erase p => exact Nat.le_refl _

theorem applyMuts_cap_mono {α : Type} [Inhabited α] (ops : List (MutOp α)) (v : Vec α) :
    v.Capacity ≤ (v.applyMuts ops).Capacity := by
  induction ops generalizing v with
  | nil => exact Nat.le_refl _
  | cons o rest ih =>
    exact Nat.le_trans (applyMut_cap_mono v o) (ih (v.applyMut o))

/-- Counterexample to claim C9 as stated: `Swap` is not capacity
non-decreasing.  A vector of capacity 1 swapped with a default-constructed
vector (capacity 0) ends with capacity 0 < 1. -/
theorem swap_capacity_decreases :
    ((⟨[0], 1⟩ : Vec Nat).SwapOp ⟨[], 0⟩).1.Capacity
      < (⟨[0], 1⟩ : Vec Nat).Capacity := by
  decide

/-- Claim C9 (amended): capacity never decreases across any sequence of the
self-mutating operations — Reserve, Resize, PushBack (both overloads),
PopBack, EmplaceBack, Emplace, Insert (both overloads), Erase — the exceptions
being replacement via copy/move assignment and exchange via `Swap`; and
`Reserve(c)` with `c ≤` the current capacity changes neither capacity, size,
nor any stored element (it returns the vector unchanged). -/
theorem capacity_monotone (α : Type) [Inhabited α] :
    (∀ (v : Vec α) (ops : List (MutOp α)), v.Capacity ≤ (v.applyMuts ops).Capacity) ∧
    (∀ (v : Vec α) (c : Nat), c ≤ v.Capacity → v.Reserve c = v) := by
  refine ⟨fun v ops => applyMuts_cap_mono ops v, fun v c h => ?_⟩
  unfold Vec.Reserve
  rw [if_pos (show c ≤ v.cap from h)]

/-- Witness for C9 (amended): `Reserve 2` on a vector of capacity 3. -/
theorem capacity_monotone_witness :
    (⟨[5, 6], 3⟩ : Vec Nat).Reserve 2 = ⟨[5, 6], 3⟩ :=
  (capacity_monotone Nat).2 ⟨[5, 6], 3⟩ 2 (by decide)

/-! ## Claim C7 -/

/-- Claim C7, evaluated at the failing input `a = [10]` (size 1, capacity 1),
`b = [20]`: move assignment does take `b`'s storage and live-count and leaves
`b` empty, but it performs zero destructor calls on `a`'s previously live
element and zero block deallocations — `a`'s old element and block are leaked
instead of released, contradicting the claimed release of `a`'s current
storage. -/
theorem moveAssign_no_release :
    Vec.moveAssign (⟨[10], 1⟩ : Vec Nat) ⟨[20], 1⟩
      = ⟨⟨[20], 1⟩, ⟨[], 0⟩, 0, 0⟩ ∧
    (⟨[10], 1⟩ : Vec Nat).Size = 1 ∧ (⟨[10], 1⟩ : Vec Nat).Capacity = 1 := by
  decide

/-! ## Claim C8 -/

/-- Claim C8, evaluated at the failing input `v = [10]` (size 1, capacity 1):
self copy-assignment is guarded by the identity check and leaves `v`
unchanged, but self move-assignment has no guard and leaves `v` empty — size 0
instead of the claimed unchanged size 1, the old storage abandoned. -/
theorem selfMoveAssign_empties :
    Vec.copyAssignSelf (⟨[10], 1⟩ : Vec Nat) = ⟨[10], 1⟩ ∧
    Vec.moveAssignSelf (⟨[10], 1⟩ : Vec Nat) = ⟨[], 0⟩ ∧
    (Vec.moveAssignSelf (⟨[10], 1⟩ : Vec Nat)).Size = 0 := by
  decide


/-! ## Storage-level model: blocks of raw slots

`RawMemory<T>` owns untyped storage; `Vector<T>` constructs and destroys
objects inside it.  A block is one `Option` slot per element of capacity:
`some x` is a constructed object holding value `x`, `none` an
uninitialized or destroyed slot (reading it is undefined behaviour). -/

abbrev Block (α : Type) := List (Option α)

/-- `RawMemory<T>::RawMemory(size_t)` with `Allocate` (lines 15-18, 81-83):
fresh storage of `n` uninitialized slots. -/
def allocate (α : Type) (n : Nat) : Block α := List.replicate n none

/-- Placement construction `new (buf + i) T(x)` into slot `i`
(cf. `Vector<T>::CopyConstruct`, lines 190-193). -/
def constructAt {α : Type} (b : Block α) (i : Nat) (x : α) : Block α := b.set i (some x)

/-- `(buf + i)->~T()` (cf. `Vector<T>::Destroy`, lines 185-188). -/
def destroyAt {α : Type} (b : Block α) (i : Nat) : Block α := b.set i none

/-- Reading the object in slot `i`: `none` when the slot holds no live object
(or is out of range) — in the source that read is undefined behaviour. -/
def readObj {α : Type} (b : Block α) (i : Nat) : Option α := (b[i]?).getD none

theorem readObj_constructAt_self {α : Type} (b : Block α) (i : Nat) (x : α)
    (h : i < b.length) : readObj (constructAt b i x) i = some x := by
  unfold readObj constructAt
  rw [List.getElem?_set_self h]
  rfl

theorem readObj_constructAt_ne {α : Type} (b : Block α) (i k : Nat) (x : α)
    (h : i ≠ k) : readObj (constructAt b i x) k = readObj b k := by
  unfold readObj constructAt
  rw [List.getElem?_set_ne h]

theorem readObj_destroyAt_self {α : Type} (b : Block α) (i : Nat) :
    readObj (destroyAt b i) i = none := by
  unfold readObj destroyAt
  by_cases h : i < b.length
  · rw [List.getElem?_set_self h]
    rfl
  · rw [List.getElem?_eq_none (by simp; omega)]
    rfl

theorem readObj_destroyAt_ne {α : Type} (b : Block α) (i k : Nat)
    (h : i ≠ k) : readObj (destroyAt b i) k = readObj b k := by
  unfold readObj destroyAt
  rw [List.getElem?_set_ne h]

theorem readObj_allocate {α : Type} (n k : Nat) : readObj (allocate α n) k = none := by
  unfold readObj allocate
  rw [List.getElem?_replicate]
  split <;> rfl

/-- `std::uninitialized_move_n(src, n, dst)` / `std::uninitialized_copy_n`
over the first `n` slots (lines 221/223, 304/306, 324/326, 350/352): slot `j`
of `dst` is constructed from the object in slot `j` of `src`, for
`j = 0, …, n-1`; at the value level moving and copying coincide.  `none` when
a read hits a dead slot (undefined behaviour). -/
def relocateN {α : Type} (src : Block α) : Nat → Block α → Option (Block α)
  | 0, dst => some dst
  | n+1, dst => (relocateN src n dst).bind fun d => (readObj src n).map fun x => constructAt d n x

theorem relocateN_spec {α : Type} (src : Block α) (n : Nat) (dst : Block α)
    (hlive : ∀ j, j < n → (readObj src j).isSome) (hn : n ≤ dst.length) :
    ∃ d, relocateN src n dst = some d ∧ d.length = dst.length ∧
      (∀ k, k < n → readObj d k = readObj src k) ∧
      (∀ k, n ≤ k → readObj d k = readObj dst k) := by
  induction n with
  | zero => exact ⟨dst, rfl, rfl, fun k hk => absurd hk (by omega), fun k _ => rfl⟩
  | succ m ih =>
    obtain ⟨d, hd, hdl, hin, hout⟩ := ih (fun j hj => hlive j (by omega)) (by omega)
    obtain ⟨x, hx⟩ : ∃ x, readObj src m = some x :=
      Option.isSome_iff_exists.mp (hlive m (by omega))
    refine ⟨constructAt d m x, ?_, ?_, ?_, ?_⟩
    · show (relocateN src m dst).bind _ = _
      rw [hd, hx]
      rfl
    · rw [show (constructAt d m x).length = d.length from List.length_set d m (some x), hdl]
    · intro k hk
      rcases Nat.lt_or_ge k m with h | h
      · rw [readObj_constructAt_ne d m k x (by omega), hin k h]
      · have hk' : k = m := by omega
        subst hk'
        rw [readObj_constructAt_self d k x (by omega), hx]
    · intro k hk
      rw [readObj_constructAt_ne d m k x (by omega), hout k (by omega)]

/-! ## Claim C10 -/

/-- Storage-level state of `Vector<T>`: the owned block and `size_`. -/
structure MVec (α : Type) where
  data : Block α
  size : Nat

/-- The container invariant: `size_` never exceeds the capacity and slots
`[0, size_)` hold live objects. -/
def MVec.Wf {α : Type} (v : MVec α) : Prop :=
  v.size ≤ v.data.length ∧ ∀ i, i < v.size → (readObj v.data i).isSome

/-- `Vector<T>::PushBack(const T&)` (lines 297-315) called with
`value = (*this)[i]`, a reference into the vector's own storage; the reference
is dereferenced exactly where the source's copy construction reads it.
Growth path (lines 300-310): allocate the new block of
`size_ == 0 ? 1 : size_ * 2` slots, `new (new_buffer + size_) T(value)` —
reading old slot `i`, still live at that point — then relocate the live
elements into the new block, destroy the originals and swap (the old block is
dropped here).  Non-growth path (line 312): construct at slot `size_`, reading
slot `i` of the same block.  `none` models undefined behaviour (a read of a
dead slot). -/
def MVec.pushBackSelf {α : Type} (v : MVec α) (i : Nat) : Option (MVec α) :=
  if v.size = v.data.length then
    (readObj v.data i).bind fun x =>
      (relocateN v.data v.size
        (constructAt (allocate α (if v.size = 0 then 1 else v.size * 2)) v.size x)).map
        fun nb2 => { data := nb2, size := v.size + 1 }
  else
    (readObj v.data i).map fun x =>
      { data := constructAt v.data v.size x, size := v.size + 1 }

/-- Claim C10: appending an element of the vector into itself is safe even
across reallocation: for a well-formed vector and `i < Size()`,
`v.PushBack(v[i])` hits no dead-slot read, increments the size, leaves the
first `Size()` live slots unchanged, and the new last slot holds a copy of the
old value of `v[i]` — in the growth path because the new element is
copy-constructed into the new block before the live elements are relocated and
the old block destroyed. -/
theorem pushBack_self_aliasing {α : Type} (v : MVec α) (i : Nat)
    (hwf : v.Wf) (hi : i < v.size) :
    ∃ w, v.pushBackSelf i = some w ∧ w.size = v.size + 1 ∧
      (∀ k, k < v.size → readObj w.data k = readObj v.data k) ∧
      readObj w.data v.size = readObj v.data i := by
  obtain ⟨hle, hlive⟩ := hwf
  obtain ⟨x, hx⟩ : ∃ x, readObj v.data i = some x :=
    Option.isSome_iff_exists.mp (hlive i hi)
  unfold MVec.pushBackSelf
  by_cases hg : v.size = v.data.length
  · rw [if_pos hg, hx]
    have hcap : v.size + 1 ≤ (allocate α (if v.size = 0 then 1 else v.size * 2)).length := by
      unfold allocate
      rw [List.length_replicate]
      split <;> omega
    have hnb : (constructAt (allocate α (if v.size = 0 then 1 else v.size * 2)) v.size x).length
        = (allocate α (if v.size = 0 then 1 else v.size * 2)).length :=
      List.length_set _ _ _
    obtain ⟨d, hd, hdl, hin, hout⟩ := relocateN_spec v.data v.size
      (constructAt (allocate α (if v.size = 0 then 1 else v.size * 2)) v.size x)
      hlive (by omega)
    refine ⟨⟨d, v.size + 1⟩, ?_, rfl, ?_, ?_⟩
    · simp only [Option.some_bind]
      rw [hd]
      rfl
    · intro k hk
      exact hin k hk
    · rw [hout v.size (Nat.le_refl _),
        readObj_constructAt_self _ _ _ (by omega)]
  · rw [if_neg hg, hx]
    refine ⟨⟨constructAt v.data v.size x, v.size + 1⟩, rfl, rfl, ?_, ?_⟩
    · intro k hk
      exact readObj_constructAt_ne v.data v.size k x (by omega)
    · rw [readObj_constructAt_self v.data v.size x (by omega)]

/-- Witness for C10: `v.PushBack(v[0])` on the full vector `[10, 20]`
(capacity 2), which grows. -/
theorem pushBack_self_aliasing_witness :
    ∃ w, MVec.pushBackSelf (⟨[some 10, some 20], 2⟩ : MVec Nat) 0 = some w ∧
      w.size = (⟨[some 10, some 20], 2⟩ : MVec Nat).size + 1 ∧
      (∀ k, k < (⟨[some 10, some 20], 2⟩ : MVec Nat).size →
        readObj w.data k = readObj (⟨[some 10, some 20], 2⟩ : MVec Nat).data k) ∧
      readObj w.data (⟨[some 10, some 20], 2⟩ : MVec Nat).size
        = readObj (⟨[some 10, some 20], 2⟩ : MVec Nat).data 0 :=
  @pushBack_self_aliasing Nat ⟨[some 10, some 20], 2⟩ 0 (by constructor <;> decide) (by decide)

/-! ## Claim C2 -/

/-- `std::uninitialized_copy_n` for an element type whose copy constructor can
fail: copying source element number `j` (0-based) succeeds iff `copyOk j`;
elements are copy-constructed into `dst` in increasing slot order and, when a
copy fails, the standard guarantee unwinds by destroying every element this
call had constructed before the exception propagates.  Returns the filled
block, or `.error (f, d)` with `f` the failing index and `d` the destination
block after unwinding. -/
def uninitCopyFallible {α : Type} (copyOk : Nat → Bool) :
    List α → Nat → Block α → Except (Nat × Block α) (Block α)
  | [], _, dst => .ok dst
  | x :: rest, j, dst =>
    if copyOk j then
      match uninitCopyFallible copyOk rest (j+1) (constructAt dst j x) with
      | .ok d => .ok d
      | .error (f, d) => .error (f, destroyAt d j)
    else .error (j, dst)

theorem uninitCopyFallible_unwound {α : Type} (copyOk : Nat → Bool) :
    ∀ (src : List α) (j : Nat) (dst : Block α) (f : Nat) (d : Block α),
    uninitCopyFallible copyOk src j dst = .error (f, d) →
    ∀ k, readObj d k = readObj dst k ∨ readObj d k = none := by
  intro src
  induction src with
  | nil =>
    intro j dst f d h k
    exact absurd h (by simp [uninitCopyFallible])
  | cons x rest ih =>
    intro j dst f d h k
    unfold uninitCopyFallible at h
    by_cases hc : copyOk j
    · rw [if_pos hc] at h
      cases hin : uninitCopyFallible copyOk rest (j+1) (constructAt dst j x) with
      | ok dd =>
        rw [hin] at h
        exact absurd h (by simp)
      | error pr =>
        obtain ⟨fp, dp⟩ := pr
        rw [hin] at h
        simp only [Except.error.injEq, Prod.mk.injEq] at h
        obtain ⟨hf, hdd⟩ := h
        subst hdd
        by_cases hkj : k = j
        · subst hkj
          exact Or.inr (readObj_destroyAt_self dp k)
        · rw [readObj_destroyAt_ne dp j k (by omega)]
          rcases ih (j+1) (constructAt dst j x) fp dp hin k with hh | hh
          · rw [hh, readObj_constructAt_ne dst j k x (by omega)]
            exact Or.inl rfl
          · exact Or.inr hh
    · rw [if_neg hc] at h
      simp only [Except.error.injEq, Prod.mk.injEq] at h
      obtain ⟨hf, hdd⟩ := h
      subst hdd
      exact Or.inl rfl

theorem uninitCopyFallible_fails {α : Type} (copyOk : Nat → Bool) :
    ∀ (src : List α) (j m : Nat) (dst : Block α), m < src.length →
    copyOk (j + m) = false → (∀ mp, mp < m → copyOk (j + mp) = true) →
    ∃ d, uninitCopyFallible copyOk src j dst = .error (j + m, d) := by
  intro src
  induction src with
  | nil =>
    intro j m dst hm
    exact absurd hm (by simp)
  | cons x rest ih =>
    intro j m dst hm hfail hpre
    unfold uninitCopyFallible
    by_cases hm0 : m = 0
    · subst hm0
      rw [if_neg (by simpa using hfail)]
      exact ⟨dst, by rw [Nat.add_zero]⟩
    · have hc : copyOk j = true := by
        have := hpre 0 (by omega)
        simpa using this
      rw [if_pos hc]
      obtain ⟨d, hd⟩ := ih (j+1) (m-1) (constructAt dst j x)
        (by simp only [List.length_cons] at hm; omega)
        (by rw [show j + 1 + (m-1) = j + m from by omega]; exact hfail)
        (fun mp hmp => by
          rw [show j + 1 + mp = j + (mp+1) from by omega]
          exact hpre (mp+1) (by omega))
      refine ⟨destroyAt d j, ?_⟩
      rw [hd]
      rw [show j + 1 + (m - 1) = j + m from by omega]

/-- Number of live (constructed) objects in a block. -/
def liveCount {α : Type} (b : Block α) : Nat := b.countP fun s => s.isSome

theorem liveCount_eq_zero {α : Type} (b : Block α) (h : ∀ k, readObj b k = none) :
    liveCount b = 0 := by
  unfold liveCount
  rw [List.countP_eq_zero]
  intro a ha
  obtain ⟨n, hn⟩ := List.mem_iff_getElem?.mp ha
  have hr := h n
  unfold readObj at hr
  rw [hn] at hr
  simp only [Option.getD_some] at hr
  subst hr
  simp

/-- Observable outcome of a failed `Reserve`: the vector after the exception
propagates, the index of the failing copy, the number of live objects left in
the new block when its owner `new_buffer` dies, and whether `~RawMemory`
(lines 37-41) released the new block — it deallocates exactly when
`capacity_ > 0`. -/
structure ReserveFailure (α : Type) where
  vec : Vec α
  failIndex : Nat
  newBlockLive : Nat
  newBlockReleased : Bool
deriving DecidableEq

/-- `Vector<T>::Reserve` (lines 212-227) for an element type with traits `t`
and a copy constructor that fails per `copyOk`.  No-op when
`capacity <= data_.Capacity()` (lines 214-216).  Otherwise `new_buffer` of
exactly `capacity` slots is allocated (line 218); on the move branch of the
relocation policy the values are transferred by non-throwing moves; on the
copy branch `std::uninitialized_copy_n` (line 223) may fail, in which case the
exception propagates out of `Reserve` before `destroy_n`/`Swap` run, the local
`new_buffer` is destroyed during unwinding (releasing the new block, since
`capacity > 0`), and `data_`/`size_` are untouched. -/
def Vec.ReserveFallible {α : Type} (t : Traits) (copyOk : Nat → Bool)
    (v : Vec α) (capacity : Nat) : Except (ReserveFailure α) (Vec α) :=
  if capacity ≤ v.cap then .ok v
  else
    match reserveRelocMode t with
    | .move => .ok ⟨v.elems, capacity⟩
    | .copy =>
      match uninitCopyFallible copyOk v.elems 0 (allocate α capacity) with
      | .error (f, d) => .error ⟨v, f, liveCount d, decide (0 < capacity)⟩
      | .ok filled => .ok ⟨(filled.take v.Size).filterMap id, capacity⟩

/-- Claim C2: strong failure safety of `Reserve`.  For any vector, any
requested capacity `c` above the current one, and an element type relocated by
copy whose copy constructor fails on the K-th copy (`K ≤ Size()`), `Reserve c`
reports the failure with the vector's size, capacity and every stored element
exactly as before the call, every element constructed in the new block
destroyed (no live object remains in it), and the new block released. -/
theorem reserve_failure_strong_safety {α : Type} (t : Traits) (copyOk : Nat → Bool)
    (v : Vec α) (c K : Nat)
    (hmode : reserveRelocMode t = .copy)
    (hc : v.Capacity < c) (hK1 : 1 ≤ K) (hK2 : K ≤ v.Size)
    (hpre : ∀ j, j < K - 1 → copyOk j = true)
    (hfail : copyOk (K - 1) = false) :
    Vec.ReserveFallible t copyOk v c = .error ⟨v, K - 1, 0, true⟩ := by
  have hcp : v.cap < c := hc
  have hK2p : K ≤ v.elems.length := hK2
  obtain ⟨d, hd⟩ := uninitCopyFallible_fails copyOk v.elems 0 (K - 1) (allocate α c)
    (by omega)
    (by simpa using hfail)
    (fun mp hmp => by simpa using hpre mp hmp)
  simp only [Nat.zero_add] at hd
  have hzero : liveCount d = 0 := by
    apply liveCount_eq_zero
    intro k
    rcases uninitCopyFallible_unwound copyOk v.elems 0 (allocate α c) (K - 1) d hd k with hh | hh
    · rw [hh, readObj_allocate]
    · exact hh
  have hrel : decide (0 < c) = true := by
    simp only [decide_eq_true_eq]
    omega
  unfold Vec.ReserveFallible
  rw [if_neg (by omega), hmode, hd]
  show (Except.error ⟨v, K - 1, liveCount d, decide (0 < c)⟩
      : Except (ReserveFailure α) (Vec α))
      = Except.error ⟨v, K - 1, 0, true⟩
  rw [hzero, hrel]

/-- Witness for C2: a copyable type with throwing moves (`t = ⟨false, true⟩`,
so the policy copies), `v = [10, 20, 30]` at capacity 3, `Reserve 4`, copy
number 2 (index 1) failing. -/
theorem reserve_failure_strong_safety_witness :
    Vec.ReserveFallible ⟨false, true⟩ (fun j => decide (j ≠ 1))
      (⟨[10, 20, 30], 3⟩ : Vec Nat) 4
      = .error ⟨⟨[10, 20, 30], 3⟩, 1, 0, true⟩ :=
  @reserve_failure_strong_safety Nat ⟨false, true⟩ (fun j => decide (j ≠ 1))
    ⟨[10, 20, 30], 3⟩ 4 2 (by decide) (by decide) (by decide) (by decide)
    (by decide) (by decide)

end VectorSpec
